import Mathlib

/-! Shallow embedding of the periodic aggregation and trend-analysis engine of
`scripts/monthly_analytics.py`, together with proofs of the behavioural
properties stated in its specification.  Pandas data frames are modelled as
lists of records with a fixed schema; nullable fields are `Option`; numeric
fields are rationals. -/

namespace MonthlyAnalytics

/-! Text normalizer: `normalize_text`, monthly_analytics.py lines 33-40. -/

/-- Characters matched by the regex character class
`[ \t\n\r\f\v\xa0 -‏]` used in `normalize_text` line 39. -/
def isRegexWs (c : Char) : Bool :=
  let n := c.toNat
  n == 32 || n == 9 || n == 10 || n == 13 || n == 12 || n == 11 ||
    n == 160 || (decide (0x2000 ≤ n) && decide (n ≤ 0x200f))

/-- Characters removed at the ends by Python `str.strip()` with no argument:
exactly the characters for which Python `str.isspace()` holds. -/
def pyIsSpace (c : Char) : Bool :=
  let n := c.toNat
  (decide (9 ≤ n) && decide (n ≤ 13)) || (decide (28 ≤ n) && decide (n ≤ 31)) ||
    n == 32 || n == 133 || n == 160 || n == 0x1680 ||
    (decide (0x2000 ≤ n) && decide (n ≤ 0x200a)) ||
    n == 0x2028 || n == 0x2029 || n == 0x202f || n == 0x205f || n == 0x3000

/-- Pointwise part of `re.sub(r'[ \t\n\r\f\v\xa0 -‏]+', ' ', text)`:
every character of the class becomes an ASCII space. -/
def wsToSpace (c : Char) : Char := if isRegexWs c then ' ' else c

/-- Collapse every run of ASCII spaces to a single space.  Mapping each
character of the class to a space and then collapsing space runs is exactly
the substitution of every maximal run of the class by one space that
`re.sub(r'[...]+', ' ', text)` performs. -/
def squeezeSpaces : List Char → List Char
  | [] => []
  | [c] => [c]
  | c :: d :: rest =>
    if c == ' ' && d == ' ' then squeezeSpaces (d :: rest)
    else c :: squeezeSpaces (d :: rest)

/-- Whitespace-run replacement of `normalize_text` line 39. -/
def collapseWs (l : List Char) : List Char := squeezeSpaces (l.map wsToSpace)

/-- Python `str.strip()`: remove leading and trailing whitespace characters. -/
def pyStripChars (l : List Char) : List Char :=
  ((l.dropWhile pyIsSpace).reverse.dropWhile pyIsSpace).reverse

/-- Case table of Python `str.lower()` on the Latin (ASCII) and Cyrillic
letters processed by this repository; `str.lower()` is the identity on every
other character occurring in this data (digits, punctuation, lowercase
letters, whitespace). -/
def upperToLower : List (Char × Char) :=
  [('A', 'a'), ('B', 'b'), ('C', 'c'), ('D', 'd'), ('E', 'e'), ('F', 'f'),
   ('G', 'g'), ('H', 'h'), ('I', 'i'), ('J', 'j'), ('K', 'k'), ('L', 'l'),
   ('M', 'm'), ('N', 'n'), ('O', 'o'), ('P', 'p'), ('Q', 'q'), ('R', 'r'),
   ('S', 's'), ('T', 't'), ('U', 'u'), ('V', 'v'), ('W', 'w'), ('X', 'x'),
   ('Y', 'y'), ('Z', 'z'),
   ('А', 'а'), ('Б', 'б'), ('В', 'в'), ('Г', 'г'), ('Д', 'д'), ('Е', 'е'),
   ('Ж', 'ж'), ('З', 'з'), ('И', 'и'), ('Й', 'й'), ('К', 'к'), ('Л', 'л'),
   ('М', 'м'), ('Н', 'н'), ('О', 'о'), ('П', 'п'), ('Р', 'р'), ('С', 'с'),
   ('Т', 'т'), ('У', 'у'), ('Ф', 'ф'), ('Х', 'х'), ('Ц', 'ц'), ('Ч', 'ч'),
   ('Ш', 'ш'), ('Щ', 'щ'), ('Ъ', 'ъ'), ('Ы', 'ы'), ('Ь', 'ь'), ('Э', 'э'),
   ('Ю', 'ю'), ('Я', 'я'),
   ('Ѐ', 'ѐ'), ('Ё', 'ё'), ('Ђ', 'ђ'), ('Ѓ', 'ѓ'), ('Є', 'є'), ('Ѕ', 'ѕ'),
   ('І', 'і'), ('Ї', 'ї'), ('Ј', 'ј'), ('Љ', 'љ'), ('Њ', 'њ'), ('Ћ', 'ћ'),
   ('Ќ', 'ќ'), ('Ѝ', 'ѝ'), ('Ў', 'ў'), ('Џ', 'џ')]

/-- Lowercasing of one character, per the table above. -/
def charLower (c : Char) : Char :=
  match upperToLower.find? (fun p => p.1 == c) with
  | some p => p.2
  | none => c

/-- Character-list form of `normalize_text` on a present value: collapse
whitespace runs, strip both ends, lowercase. -/
def normChars (l : List Char) : List Char :=
  (pyStripChars (collapseWs l)).map charLower

/-- String form of `normalize_text` on a present value. -/
def normStr (s : String) : String := String.mk (normChars s.data)

/-- Model of `normalize_text` (lines 33-40): an absent value (`pd.isna`) is
returned unchanged, otherwise every whitespace run is replaced by a single
space, the ends are stripped and the result is lowercased. -/
def normalize_text (x : Option String) : Option String := x.map normStr

/-! Keyword classifier: `is_monthly_salary`, lines 182-191. -/

/-- Keyword list of `is_monthly_salary` line 190. -/
def monthly_keywords : List String := ["месяц", "month", "мес"]

/-- Boolean prefix test on character lists. -/
def isPrefixChars : List Char → List Char → Bool
  | [], _ => true
  | _ :: _, [] => false
  | a :: as, b :: bs => a == b && isPrefixChars as bs

/-- Python substring containment `needle in hay` on character lists. -/
def containsSub (needle : List Char) : List Char → Bool
  | [] => needle.isEmpty
  | c :: rest => isPrefixChars needle (c :: rest) || containsSub needle rest

/-- Model of `is_monthly_salary` (lines 182-191): absent classifies false;
otherwise the input is normalized again and tested for containment of any of
the monthly keywords. -/
def is_monthly_salary (x : Option String) : Bool :=
  match x with
  | none => false
  | some t => monthly_keywords.any (fun k => containsSub k.data (normStr t).data)

/-! Period window calculator: `get_previous_month_range` (lines 42-61) and
`get_month_before_previous_range` (lines 63-82).  Python `datetime` values in
the fixed civil timezone are modelled at second granularity; `replace` keeps
every field it is not given, exactly as in Python. -/

structure PyDateTime where
  year : Int
  month : Int
  day : Int
  hour : Int
  minute : Int
  second : Int
  deriving DecidableEq, Repr

/-- Gregorian leap-year rule used by Python `datetime`. -/
def isLeapYear (y : Int) : Bool :=
  y % 4 == 0 && (y % 100 != 0 || y % 400 == 0)

/-- Number of days of a civil month. -/
def daysInMonth (y m : Int) : Int :=
  if m == 2 then (if isLeapYear y then 29 else 28)
  else if m == 4 || m == 6 || m == 9 || m == 11 then 30
  else 31

/-- Python `dt - timedelta(seconds=1)` at second granularity, with borrow
through minute, hour, day, month and year. -/
def subOneSecond (d : PyDateTime) : PyDateTime :=
  if 0 < d.second then { d with second := d.second - 1 }
  else if 0 < d.minute then { d with minute := d.minute - 1, second := 59 }
  else if 0 < d.hour then { d with hour := d.hour - 1, minute := 59, second := 59 }
  else if 1 < d.day then
    { d with day := d.day - 1, hour := 23, minute := 59, second := 59 }
  else if 1 < d.month then
    { d with month := d.month - 1, day := daysInMonth d.year (d.month - 1),
             hour := 23, minute := 59, second := 59 }
  else
    { year := d.year - 1, month := 12, day := 31, hour := 23, minute := 59, second := 59 }

/-- Model of `get_previous_month_range` (lines 42-61), a literal translation:
`replace` calls keep the fields they are not given, so `next_month` keeps the
reference's time of day before one second is subtracted. -/
def get_previous_month_range (report_date : PyDateTime) : PyDateTime × PyDateTime :=
  let prev_month_date :=
    if report_date.month == 1 then
      { report_date with year := report_date.year - 1, month := 12, day := 1 }
    else
      { report_date with month := report_date.month - 1, day := 1 }
  let month_start := { prev_month_date with hour := 0, minute := 0, second := 0 }
  let next_month :=
    if prev_month_date.month == 12 then
      { prev_month_date with year := prev_month_date.year + 1, month := 1, day := 1 }
    else
      { prev_month_date with month := prev_month_date.month + 1, day := 1 }
  (month_start, subOneSecond next_month)

/-- Model of `get_month_before_previous_range` (lines 63-82), a literal
translation with the same `replace` semantics. -/
def get_month_before_previous_range (report_date : PyDateTime) : PyDateTime × PyDateTime :=
  let two_months_ago :=
    if report_date.month == 1 then
      { report_date with year := report_date.year - 1, month := 11, day := 1 }
    else if report_date.month == 2 then
      { report_date with year := report_date.year - 1, month := 12, day := 1 }
    else
      { report_date with month := report_date.month - 2, day := 1 }
  let month_start := { two_months_ago with hour := 0, minute := 0, second := 0 }
  let next_month :=
    if two_months_ago.month == 12 then
      { two_months_ago with year := two_months_ago.year + 1, month := 1, day := 1 }
    else
      { two_months_ago with month := two_months_ago.month + 1, day := 1 }
  (month_start, subOneSecond next_month)

/-- Chronological strict order on model datetimes (lexicographic). -/
def dtLtB (a b : PyDateTime) : Bool :=
  if a.year != b.year then decide (a.year < b.year)
  else if a.month != b.month then decide (a.month < b.month)
  else if a.day != b.day then decide (a.day < b.day)
  else if a.hour != b.hour then decide (a.hour < b.hour)
  else if a.minute != b.minute then decide (a.minute < b.minute)
  else decide (a.second < b.second)

/-! Metric aggregator: `analyze_monthly_metrics`, lines 193-283.  One row of
the per-city data frame, with the derived columns computed at ingestion
(lines 165-178); nullable source fields are `Option`. -/

structure Vacancy where
  salary_period_name_normalized : Option String
  salary_to_net : Option ℚ
  salary_from_net : Option ℚ
  published_day : Nat
  published_weekday : String
  employer : Option String
  schedule_name_normalized : Option String
  deriving DecidableEq, Repr

/-- Trend descriptor returned by `analyze_trend_from_ema` (lines 88-125);
`end_` models the dict key `end`. -/
structure Trend where
  start : ℚ
  end_ : ℚ
  change : ℚ
  pct : ℚ
  direction : String
  strength : String
  emoji : String
  deriving DecidableEq, Repr

/-- Report produced by one `analyze_monthly_metrics` call without a
comparison frame.  Keys that the source sets only conditionally are `Option`
(`none` models the key being absent from the dict); `to_dict()` results are
association lists in the order of the underlying series. -/
structure Metrics where
  total_vacancies : Nat
  with_monthly_salary : Nat
  salary_percentage : ℚ
  avg_salary : Option ℚ
  median_salary : Option ℚ
  salary_std : Option ℚ
  q25 : Option ℚ
  q75 : Option ℚ
  q90 : Option ℚ
  q10 : Option ℚ
  avg_salary_range : Option ℚ
  vacancies_with_range : Option Nat
  trend_analysis : Option Trend
  top_schedules : List (String × Nat)
  total_schedules : Nat
  top_weekday : Option String
  weekday_counts : List (String × Nat)
  top_employers_count : List (String × Nat)
  top_employers_salary : Option (List (String × ℚ))
  deriving DecidableEq, Repr

/-- Distinct values of a list in order of first appearance: the key order of
a pandas hash table, hence of `value_counts()` before sorting. -/
def uniqueKeys {α : Type} [DecidableEq α] (l : List α) : List α :=
  l.foldl (fun acc a => if a ∈ acc then acc else acc ++ [a]) []

/-- Insertion step of a stable sort by count descending: the new entry goes
before the first entry with a count less than or equal to its own, so earlier
entries of equal count stay first. -/
def insertCountDesc (p : String × Nat) : List (String × Nat) → List (String × Nat)
  | [] => [p]
  | q :: rest => if q.2 ≤ p.2 then p :: q :: rest else q :: insertCountDesc p rest

/-- Stable sort by count descending. -/
def sortCountDesc : List (String × Nat) → List (String × Nat)
  | [] => []
  | p :: rest => insertCountDesc p (sortCountDesc rest)

/-- Model of pandas `Series.value_counts()`: pairs (value, multiplicity) over
the distinct values, sorted by multiplicity descending, ties kept in first
appearance order (the library's stable sort over the hash-table key order). -/
def value_counts (l : List String) : List (String × Nat) :=
  sortCountDesc ((uniqueKeys l).map (fun k => (k, l.count k)))

/-- Arithmetic mean of a rational series (pandas `mean`); the empty case
never reaches the report because every use is guarded. -/
def listMean (xs : List ℚ) : ℚ := xs.sum / (xs.length : ℚ)

/-- Stable insertion step of an ascending sort. -/
def insertAsc {α : Type} [LinearOrder α] (a : α) : List α → List α
  | [] => [a]
  | b :: l => if a ≤ b then a :: b :: l else b :: insertAsc a l

/-- Ascending sort (pandas `sort_index` / sorted group keys). -/
def sortAsc {α : Type} [LinearOrder α] : List α → List α
  | [] => []
  | a :: l => insertAsc a (sortAsc l)

/-- Pandas `Series.quantile(p)` with the default linear interpolation between
the order statistics at positions floor((n-1)p) and floor((n-1)p)+1. -/
def quantileLinear (xs : List ℚ) (p : ℚ) : ℚ :=
  let s := sortAsc xs
  let n := s.length
  if n = 0 then 0
  else
    let h : ℚ := ((n : ℚ) - 1) * p
    let lo : Nat := (⌊h⌋).toNat
    let lov := s.getD lo 0
    let hiv := s.getD (lo + 1) lov
    lov + (h - (lo : ℚ)) * (hiv - lov)

/-- Pandas `Series.median()`, the 50% quantile with linear interpolation. -/
def listMedian (xs : List ℚ) : ℚ := quantileLinear xs (1 / 2)

/-- Square of pandas `Series.std()` (sample variance, `ddof=1`).  The source
stores the square root of this value; no claim depends on the stored value,
only on the presence of the key, and the square root is determined by this
quantity. -/
def sampleVariance (xs : List ℚ) : ℚ :=
  (xs.map (fun x => (x - listMean xs) ^ 2)).sum / ((xs.length : ℚ) - 1)

/-- Model of `calculate_ema` (lines 84-86): `ewm(span=span, adjust=False)`
with `alpha = 2/(span+1)`, seeded at the first value. -/
def emaFrom (alpha prev : ℚ) : List ℚ → List ℚ
  | [] => []
  | x :: xs =>
    let y := (1 - alpha) * prev + alpha * x
    y :: emaFrom alpha y xs

/-- Exponential moving average of a series, recurrence of `calculate_ema`. -/
def calculate_ema (xs : List ℚ) (span : Nat) : List ℚ :=
  match xs with
  | [] => []
  | x :: rest => x :: emaFrom (2 / ((span : ℚ) + 1)) x rest

/-- Model of `analyze_trend_from_ema` (lines 88-125): `none` models the empty
dict returned for series shorter than two points. -/
def analyze_trend_from_ema (l : List ℚ) : Option Trend :=
  if l.length < 2 then none
  else
    let s := l.headI
    let e := l.getLastD 0
    let ch := e - s
    let pct := if 0 < s then ch / s * 100 else 0
    let strength :=
      if 5 < |pct| then "сильный" else if 2 < |pct| then "умеренный" else "слабый"
    let de : String × String :=
      if 1 < pct then ("восходящий", "📈")
      else if pct < -1 then ("нисходящий", "📉")
      else ("боковой", "➡️")
    some { start := s, end_ := e, change := ch, pct := pct,
           direction := de.1, strength := strength, emoji := de.2 }

/-- Employer cleaning of line 256: `str.strip()` keeps a null as null, then
`fillna` replaces only nulls with the explicit bucket; a present but blank
employer is stripped to the empty string and stays the empty string. -/
def employerClean (r : Vacancy) : String :=
  match r.employer with
  | none => "Не указан"
  | some s => String.mk (pyStripChars s.data)

/-- Monthly-salary subset of line 203-204: the classifier accepts the
normalized salary period and the net upper bound is present. -/
def monthlySubset (l : List Vacancy) : List Vacancy :=
  l.filter (fun r => is_monthly_salary r.salary_period_name_normalized && r.salary_to_net.isSome)

/-- Net salary values of the monthly subset. -/
def subsetSalaries (l : List Vacancy) : List ℚ :=
  (monthlySubset l).filterMap (fun r => r.salary_to_net)

/-- Distinct publication days carrying monthly-salary data, in ascending
order: the group keys of `groupby('published_day')` (line 235). -/
def salaryDays (l : List Vacancy) : List Nat :=
  sortAsc (uniqueKeys ((monthlySubset l).map (fun r => r.published_day)))

/-- Number of distinct publication days carrying monthly-salary data: the
length of `daily_avg_salary` tested against 7 at line 236. -/
def distinctSalaryDays (l : List Vacancy) : Nat :=
  (uniqueKeys ((monthlySubset l).map (fun r => r.published_day))).length

/-- Per-day mean net salary, ordered by day ascending: the series
`daily_avg_salary.sort_index()` of lines 235-237. -/
def dailyMeanSeries (l : List Vacancy) : List ℚ :=
  (salaryDays l).map (fun d =>
    listMean (((monthlySubset l).filter (fun r => r.published_day == d)).filterMap
      (fun r => r.salary_to_net)))

/-- Model of `analyze_monthly_metrics` (lines 193-283) without a comparison
frame, over a list of records with the fixed ingestion schema.  The key
`top_employers_salary` is never set by the source: the check at line 262
tests the column `employer_clean` on `monthly_salary_data`, but that frame
was sliced at line 204, before the column is added to `city_data` at line
256, so the column is never present there. -/
def analyze_monthly_metrics (l : List Vacancy) : Metrics :=
  let total := l.length
  let sub := monthlySubset l
  let sal := sub.filterMap (fun r => r.salary_to_net)
  let swr := sub.filter (fun r => r.salary_from_net.isSome)
  let scheds := l.filterMap (fun r => r.schedule_name_normalized)
  let wds := l.map (fun r => r.published_weekday)
  { total_vacancies := total
    with_monthly_salary := sub.length
    salary_percentage := if 0 < total then ((sub.length : ℚ) / (total : ℚ)) * 100 else 0
    avg_salary := if sub.isEmpty then none else some (listMean sal)
    median_salary := if sub.isEmpty then none else some (listMedian sal)
    salary_std := if sub.isEmpty then none else some (sampleVariance sal)
    q25 := if sub.isEmpty then none else some (quantileLinear sal (1 / 4))
    q75 := if sub.isEmpty then none else some (quantileLinear sal (3 / 4))
    q90 := if sub.isEmpty then none else some (quantileLinear sal (9 / 10))
    q10 := if sub.isEmpty then none else some (quantileLinear sal (1 / 10))
    avg_salary_range :=
      if sub.isEmpty then none
      else some (if swr.isEmpty then 0
        else listMean (swr.map (fun r => r.salary_to_net.getD 0 - r.salary_from_net.getD 0)))
    vacancies_with_range := if sub.isEmpty then none else some swr.length
    trend_analysis :=
      if 7 ≤ (uniqueKeys (sub.map (fun r => r.published_day))).length then
        analyze_trend_from_ema (calculate_ema (dailyMeanSeries l) 7)
      else none
    top_schedules := (value_counts scheds).take 3
    total_schedules := (value_counts scheds).length
    top_weekday := ((value_counts wds).head?).map Prod.fst
    weekday_counts := value_counts wds
    top_employers_count := (value_counts (l.map employerClean)).take 5
    top_employers_salary := none }

/-- Specification-side definition, from the words of the claim about
`top_weekday`: the earliest weekday in the fixed Monday..Sunday order among
the weekdays attaining the maximum count.  Used only to compare the source's
tie-break with the specified one. -/
def daysOrderSpec : List String :=
  ["Monday", "Tuesday", "Wednesday", "Thursday", "Friday", "Saturday", "Sunday"]

/-- Specified top weekday (earliest maximiser in the fixed order). -/
def specTopWeekday (l : List Vacancy) : Option String :=
  let ws := l.map (fun r => r.published_weekday)
  (daysOrderSpec.filter (fun d => ws.all (fun v => ws.count v ≤ ws.count d))).head?

/-! Structural lemmas about the whitespace-collapsing pass. -/

theorem squeezeSpaces_head (c : Char) (l : List Char) :
    (squeezeSpaces (c :: l)).head? = some c := by
  induction l generalizing c with
  | nil => rfl
  | cons d rest ih =>
    by_cases h : (c == ' ' && d == ' ') = true
    · obtain ⟨hc, hd⟩ : c = ' ' ∧ d = ' ' := by simpa using h
      simp only [squeezeSpaces, if_pos h]
      rw [ih d, hc, hd]
    · simp only [squeezeSpaces, if_neg h]
      rfl

theorem squeezeSpaces_sublist (l : List Char) : (squeezeSpaces l).Sublist l := by
  induction l with
  | nil => exact List.Sublist.refl _
  | cons c rest ih =>
    cases rest with
    | nil => simp [squeezeSpaces]
    | cons d rest2 =>
      by_cases h : (c == ' ' && d == ' ') = true
      · simp only [squeezeSpaces, if_pos h]
        exact ih.cons c
      · simp only [squeezeSpaces, if_neg h]
        exact ih.cons₂ c

theorem collapseWs_allSpace (l : List Char) :
    ∀ c ∈ collapseWs l, isRegexWs c = true → c = ' ' := by
  intro c hc hw
  have hmem : c ∈ l.map wsToSpace :=
    List.Sublist.mem hc (squeezeSpaces_sublist (l.map wsToSpace))
  obtain ⟨a, _, rfl⟩ := List.mem_map.mp hmem
  by_cases h : isRegexWs a = true
  · simp [wsToSpace, h]
  · simp only [wsToSpace, if_neg h] at hw
    exact absurd hw h

theorem chain'_squeezeSpaces (l : List Char) :
    List.Chain' (fun a b => ¬(a = ' ' ∧ b = ' ')) (squeezeSpaces l) := by
  induction l with
  | nil => simp [squeezeSpaces]
  | cons c rest ih =>
    cases rest with
    | nil => simp [squeezeSpaces]
    | cons d rest2 =>
      by_cases h : (c == ' ' && d == ' ') = true
      · simpa only [squeezeSpaces, if_pos h] using ih
      · simp only [squeezeSpaces, if_neg h]
        refine List.chain'_cons'.mpr ⟨?_, ih⟩
        intro y hy
        rw [squeezeSpaces_head] at hy
        have hyd : d = y := by simpa using hy
        subst hyd
        intro hcd
        exact h (by simp [hcd.1, hcd.2])

theorem wsToSpace_eq_self {c : Char} (h : isRegexWs c = true → c = ' ') :
    wsToSpace c = c := by
  by_cases hc : isRegexWs c = true
  · rw [h hc]
    decide
  · simp [wsToSpace, hc]

theorem map_wsToSpace_id {l : List Char} (h : ∀ c ∈ l, isRegexWs c = true → c = ' ') :
    l.map wsToSpace = l := by
  induction l with
  | nil => rfl
  | cons c rest ih =>
    simp only [List.map_cons]
    rw [wsToSpace_eq_self (h c (List.mem_cons_self c rest)),
      ih (fun x hx => h x (List.mem_cons_of_mem c hx))]

theorem squeezeSpaces_fix {l : List Char}
    (h : List.Chain' (fun a b => ¬(a = ' ' ∧ b = ' ')) l) : squeezeSpaces l = l := by
  induction l with
  | nil => rfl
  | cons c rest ih =>
    cases rest with
    | nil => rfl
    | cons d rest2 =>
      obtain ⟨hhead, htail⟩ := List.chain'_cons'.mp h
      have hcd : ¬(c = ' ' ∧ d = ' ') := hhead d (by simp)
      have hguard : ¬((c == ' ' && d == ' ') = true) := by
        intro hg
        exact hcd (by simpa using hg)
      simp only [squeezeSpaces, if_neg hguard]
      rw [ih htail]

theorem collapseWs_fix {l : List Char}
    (h1 : ∀ c ∈ l, isRegexWs c = true → c = ' ')
    (h2 : List.Chain' (fun a b => ¬(a = ' ' ∧ b = ' ')) l) : collapseWs l = l := by
  unfold collapseWs
  rw [map_wsToSpace_id h1, squeezeSpaces_fix h2]

/-! Structural lemmas about the stripping pass. -/

theorem dropWhile_head_not {p : Char → Bool} :
    ∀ {l : List Char} {c : Char}, (l.dropWhile p).head? = some c → p c = false := by
  intro l
  induction l with
  | nil => intro c h; simp at h
  | cons a rest ih =>
    intro c h
    rw [List.dropWhile_cons] at h
    by_cases hp : p a = true
    · rw [if_pos hp] at h
      exact ih h
    · rw [if_neg hp] at h
      have hac : a = c := by simpa using h
      subst hac
      simpa using hp

theorem dropWhile_getLast_of_ne_nil {p : Char → Bool} :
    ∀ {l : List Char}, l.dropWhile p ≠ [] → (l.dropWhile p).getLast? = l.getLast? := by
  intro l
  induction l with
  | nil => intro h; simp at h
  | cons a rest ih =>
    intro h
    by_cases hp : p a = true
    · rw [List.dropWhile_cons, if_pos hp] at h ⊢
      have hrest : rest ≠ [] := by
        intro hr
        rw [hr] at h
        simp at h
      rw [ih h]
      cases rest with
      | nil => exact absurd rfl hrest
      | cons b rest2 => simp
    · rw [List.dropWhile_cons, if_neg hp]

theorem dropWhile_eq_self {p : Char → Bool} {l : List Char}
    (hh : ∀ c, l.head? = some c → p c = false) : l.dropWhile p = l := by
  cases l with
  | nil => rfl
  | cons a rest =>
    have := hh a rfl
    simp [List.dropWhile_cons, this]

theorem pyStripChars_sublist (l : List Char) : (pyStripChars l).Sublist l := by
  unfold pyStripChars
  have s1 : (((l.dropWhile pyIsSpace).reverse.dropWhile pyIsSpace).reverse).Sublist
      (l.dropWhile pyIsSpace) := by
    have := (List.dropWhile_sublist (l := (l.dropWhile pyIsSpace).reverse) pyIsSpace).reverse
    simpa using this
  exact s1.trans (List.dropWhile_sublist pyIsSpace)

theorem chain'_dropWhile {R : Char → Char → Prop} {p : Char → Bool} :
    ∀ {l : List Char}, List.Chain' R l → List.Chain' R (l.dropWhile p) := by
  intro l h
  induction l with
  | nil => simp
  | cons a rest ih =>
    rw [List.dropWhile_cons]
    by_cases hp : p a = true
    · rw [if_pos hp]
      exact ih (List.chain'_cons'.mp h).2
    · rw [if_neg hp]
      exact h

theorem chain'_pyStrip {R : Char → Char → Prop} (hsymm : ∀ a b, R a b → R b a)
    {l : List Char} (h : List.Chain' R l) : List.Chain' R (pyStripChars l) := by
  unfold pyStripChars
  have h1 : List.Chain' R (l.dropWhile pyIsSpace) := chain'_dropWhile h
  have h2 : List.Chain' R ((l.dropWhile pyIsSpace).reverse) :=
    List.chain'_reverse.mpr (h1.imp (fun a b hab => hsymm a b hab))
  have h3 : List.Chain' R (((l.dropWhile pyIsSpace).reverse).dropWhile pyIsSpace) :=
    chain'_dropWhile h2
  exact List.chain'_reverse.mpr (h3.imp (fun a b hab => hsymm a b hab))

theorem pyStrip_head_not {l : List Char} {c : Char}
    (h : (pyStripChars l).head? = some c) : pyIsSpace c = false := by
  unfold pyStripChars at h
  rw [List.head?_reverse] at h
  have hne : ((l.dropWhile pyIsSpace).reverse.dropWhile pyIsSpace) ≠ [] := by
    intro hnil
    rw [hnil] at h
    simp at h
  rw [dropWhile_getLast_of_ne_nil hne, List.getLast?_reverse] at h
  exact dropWhile_head_not h

theorem pyStrip_getLast_not {l : List Char} {c : Char}
    (h : (pyStripChars l).getLast? = some c) : pyIsSpace c = false := by
  unfold pyStripChars at h
  rw [List.getLast?_reverse] at h
  exact dropWhile_head_not h

theorem pyStrip_fix {l : List Char}
    (hh : ∀ c, l.head? = some c → pyIsSpace c = false)
    (hl : ∀ c, l.getLast? = some c → pyIsSpace c = false) : pyStripChars l = l := by
  unfold pyStripChars
  rw [dropWhile_eq_self hh]
  rw [dropWhile_eq_self (p := pyIsSpace) (l := l.reverse)
    (by intro c hc; rw [List.head?_reverse] at hc; exact hl c hc)]
  exact List.reverse_reverse l

/-! Lemmas about the lowercasing pass. -/

theorem upperToLower_fst_not_ws :
    ∀ pr ∈ upperToLower, pyIsSpace pr.1 = false ∧ isRegexWs pr.1 = false := by decide

theorem upperToLower_snd_not_ws :
    ∀ pr ∈ upperToLower, pyIsSpace pr.2 = false ∧ isRegexWs pr.2 = false ∧ pr.2 ≠ ' ' := by
  decide

theorem upperToLower_snd_fixed :
    ∀ pr ∈ upperToLower, upperToLower.find? (fun q => q.1 == pr.2) = none := by decide

theorem charLower_cases (c : Char) :
    charLower c = c ∨ ∃ pr ∈ upperToLower, pr.1 = c ∧ charLower c = pr.2 := by
  unfold charLower
  cases hf : upperToLower.find? (fun p => p.1 == c) with
  | none => exact Or.inl rfl
  | some pr =>
    refine Or.inr ⟨pr, List.mem_of_find?_eq_some hf, ?_, rfl⟩
    have := List.find?_some hf
    simpa using this

theorem charLower_pyIsSpace (c : Char) : pyIsSpace (charLower c) = pyIsSpace c := by
  rcases charLower_cases c with h | ⟨pr, hm, hc, h⟩
  · rw [h]
  · rw [h, ← hc]
    rw [(upperToLower_fst_not_ws pr hm).1, (upperToLower_snd_not_ws pr hm).1]

theorem charLower_isRegexWs (c : Char) : isRegexWs (charLower c) = isRegexWs c := by
  rcases charLower_cases c with h | ⟨pr, hm, hc, h⟩
  · rw [h]
  · rw [h, ← hc]
    rw [(upperToLower_fst_not_ws pr hm).2, (upperToLower_snd_not_ws pr hm).2.1]

theorem charLower_space : charLower ' ' = ' ' := by decide

theorem charLower_eq_space_imp {c : Char} (h : charLower c = ' ') : c = ' ' := by
  rcases charLower_cases c with hc | ⟨pr, hm, hc1, hc2⟩
  · rw [← hc]
    exact h
  · rw [hc2] at h
    exact absurd h (upperToLower_snd_not_ws pr hm).2.2

theorem charLower_idem (c : Char) : charLower (charLower c) = charLower c := by
  rcases charLower_cases c with h | ⟨pr, hm, _, h⟩
  · rw [h]
    exact h
  · rw [h]
    unfold charLower
    rw [upperToLower_snd_fixed pr hm]

theorem map_charLower_self (x : List Char) :
    (x.map charLower).map charLower = x.map charLower := by
  induction x with
  | nil => rfl
  | cons c rest ih => simp only [List.map_cons, charLower_idem, ih]

/-! Idempotence of the full normalization pipeline. -/

theorem normChars_allSpace (l : List Char) :
    ∀ c ∈ normChars l, isRegexWs c = true → c = ' ' := by
  intro c hc hw
  obtain ⟨a, ha, rfl⟩ := List.mem_map.mp hc
  rw [charLower_isRegexWs] at hw
  have ha2 : a ∈ collapseWs l := List.Sublist.mem ha (pyStripChars_sublist (collapseWs l))
  rw [collapseWs_allSpace l a ha2 hw, charLower_space]

theorem normChars_chain (l : List Char) :
    List.Chain' (fun a b => ¬(a = ' ' ∧ b = ' ')) (normChars l) := by
  unfold normChars
  rw [List.chain'_map]
  have h1 : List.Chain' (fun a b => ¬(a = ' ' ∧ b = ' ')) (pyStripChars (collapseWs l)) :=
    chain'_pyStrip (fun a b hab h2 => hab ⟨h2.2, h2.1⟩) (chain'_squeezeSpaces _)
  exact h1.imp (fun a b hab h2 =>
    hab ⟨charLower_eq_space_imp h2.1, charLower_eq_space_imp h2.2⟩)

theorem normChars_head_not (l : List Char) :
    ∀ c, (normChars l).head? = some c → pyIsSpace c = false := by
  intro c hc
  unfold normChars at hc
  rw [List.head?_map] at hc
  cases hs : (pyStripChars (collapseWs l)).head? with
  | none => rw [hs] at hc; simp at hc
  | some a =>
    rw [hs] at hc
    have hca : charLower a = c := by simpa using hc
    rw [← hca, charLower_pyIsSpace]
    exact pyStrip_head_not hs

theorem normChars_getLast_not (l : List Char) :
    ∀ c, (normChars l).getLast? = some c → pyIsSpace c = false := by
  intro c hc
  unfold normChars at hc
  rw [List.getLast?_map] at hc
  cases hs : (pyStripChars (collapseWs l)).getLast? with
  | none => rw [hs] at hc; simp at hc
  | some a =>
    rw [hs] at hc
    have hca : charLower a = c := by simpa using hc
    rw [← hca, charLower_pyIsSpace]
    exact pyStrip_getLast_not hs

theorem normChars_idem (l : List Char) : normChars (normChars l) = normChars l := by
  conv_lhs => rw [normChars]
  rw [collapseWs_fix (normChars_allSpace l) (normChars_chain l)]
  rw [pyStrip_fix (normChars_head_not l) (normChars_getLast_not l)]
  unfold normChars
  exact map_charLower_self _

theorem normStr_idem (s : String) : normStr (normStr s) = normStr s := by
  unfold normStr
  rw [show (String.mk (normChars s.data)).data = normChars s.data from rfl]
  rw [normChars_idem]

/-- Claim C3: the text normalizer is idempotent — normalizing an already
normalized value yields the same value — and an absent (null) input is
returned unchanged. -/
theorem claim_C3_normalize_idempotent :
    (∀ x : Option String, normalize_text (normalize_text x) = normalize_text x) ∧
      normalize_text none = none := by
  constructor
  · intro x
    cases x with
    | none => rfl
    | some s =>
      show some (normStr (normStr s)) = some (normStr s)
      rw [normStr_idem]
  · rfl

/-- Claim C8: the keyword classifier returns true exactly when the normalized
label contains one of the fixed per-month keywords, tolerating surrounding
whitespace and case; in particular it accepts "  В МЕСЯЦ ", rejects
"за час" and classifies an absent input false. -/
theorem claim_C8_classifier :
    (∀ s : String, is_monthly_salary (some s) = true ↔
        ∃ k ∈ monthly_keywords, containsSub k.data (normStr s).data = true) ∧
      is_monthly_salary (some "  В МЕСЯЦ ") = true ∧
      is_monthly_salary (some "за час") = false ∧
      is_monthly_salary none = false := by
  refine ⟨?_, by decide, by decide, rfl⟩
  intro s
  unfold is_monthly_salary
  exact List.any_eq_true

/-! Period window calculator: behaviour at concrete reference instants. -/

/-- Claim C1, evaluated on the code: for a reference instant at midnight the
returned window is the claimed previous civil month (both cited examples
hold), but for the reference instant 2024-03-15 12:00:00 — the shape produced
by `datetime.now` in `main_monthly_report` — the window end keeps the
reference's time of day and lands on 2024-03-01 11:59:59, inside March, not
at 2024-02-29 23:59:59 as the claim and the function's own docstring state.
The universally quantified claim therefore fails on the code. -/
theorem claim_C1_window_end_eval :
    get_previous_month_range ⟨2024, 3, 15, 0, 0, 0⟩ =
        (⟨2024, 2, 1, 0, 0, 0⟩, ⟨2024, 2, 29, 23, 59, 59⟩) ∧
      get_previous_month_range ⟨2024, 1, 10, 0, 0, 0⟩ =
        (⟨2023, 12, 1, 0, 0, 0⟩, ⟨2023, 12, 31, 23, 59, 59⟩) ∧
      get_previous_month_range ⟨2024, 3, 15, 12, 0, 0⟩ =
        (⟨2024, 2, 1, 0, 0, 0⟩, ⟨2024, 3, 1, 11, 59, 59⟩) ∧
      (get_previous_month_range ⟨2024, 3, 15, 12, 0, 0⟩).2 ≠
        ⟨2024, 2, 29, 23, 59, 59⟩ := by
  refine ⟨by decide, by decide, by decide, by decide⟩

/-- Claim C9, evaluated on the code: at the reference instant
2024-03-15 12:00:00 the comparison window returned by
`get_month_before_previous_range` ends at 2024-02-01 11:59:59, which is not
strictly before — in fact strictly after — the current window's start
2024-02-01 00:00:00 returned by `get_previous_month_range`, so the two
windows overlap and the disjointness claim fails on the code. -/
theorem claim_C9_windows_overlap_eval :
    (get_month_before_previous_range ⟨2024, 3, 15, 12, 0, 0⟩).2 =
        ⟨2024, 2, 1, 11, 59, 59⟩ ∧
      (get_previous_month_range ⟨2024, 3, 15, 12, 0, 0⟩).1 = ⟨2024, 2, 1, 0, 0, 0⟩ ∧
      dtLtB (get_month_before_previous_range ⟨2024, 3, 15, 12, 0, 0⟩).2
          (get_previous_month_range ⟨2024, 3, 15, 12, 0, 0⟩).1 = false ∧
      dtLtB (get_previous_month_range ⟨2024, 3, 15, 12, 0, 0⟩).1
          (get_month_before_previous_range ⟨2024, 3, 15, 12, 0, 0⟩).2 = true := by
  refine ⟨by decide, by decide, by decide, by decide⟩

/-! Metric aggregator: behaviour on the empty record set. -/

/-- Claim C2: on an empty record set the aggregator reports zero totals and a
zero salary percentage, sets none of the salary-distribution keys, no trend
descriptor, and empty categorical breakdowns; in the model it is a total
function, so no exception is possible. -/
theorem claim_C2_empty_report :
    (analyze_monthly_metrics []).total_vacancies = 0 ∧
      (analyze_monthly_metrics []).with_monthly_salary = 0 ∧
      (analyze_monthly_metrics []).salary_percentage = 0 ∧
      (analyze_monthly_metrics []).avg_salary = none ∧
      (analyze_monthly_metrics []).median_salary = none ∧
      (analyze_monthly_metrics []).salary_std = none ∧
      (analyze_monthly_metrics []).q25 = none ∧
      (analyze_monthly_metrics []).q75 = none ∧
      (analyze_monthly_metrics []).q90 = none ∧
      (analyze_monthly_metrics []).q10 = none ∧
      (analyze_monthly_metrics []).avg_salary_range = none ∧
      (analyze_monthly_metrics []).vacancies_with_range = none ∧
      (analyze_monthly_metrics []).trend_analysis = none ∧
      (analyze_monthly_metrics []).top_schedules = [] ∧
      (analyze_monthly_metrics []).total_schedules = 0 ∧
      (analyze_monthly_metrics []).top_weekday = none ∧
      (analyze_monthly_metrics []).weekday_counts = [] ∧
      (analyze_monthly_metrics []).top_employers_count = [] ∧
      (analyze_monthly_metrics []).top_employers_salary = none := by
  decide

/-- Claim C10: for every record set, the monthly-salary subset is a subset of
the input, so the reported count is at most the total and the salary
percentage lies between 0 and 100. -/
theorem claim_C10_percentage_bounds (l : List Vacancy) :
    (analyze_monthly_metrics l).with_monthly_salary ≤
        (analyze_monthly_metrics l).total_vacancies ∧
      0 ≤ (analyze_monthly_metrics l).salary_percentage ∧
      (analyze_monthly_metrics l).salary_percentage ≤ 100 := by
  have hproj1 : (analyze_monthly_metrics l).with_monthly_salary =
      (monthlySubset l).length := rfl
  have hproj2 : (analyze_monthly_metrics l).total_vacancies = l.length := rfl
  have hproj3 : (analyze_monthly_metrics l).salary_percentage =
      (if 0 < l.length then (((monthlySubset l).length : ℚ) / (l.length : ℚ)) * 100
        else 0) := rfl
  rw [hproj1, hproj2, hproj3]
  have hle : (monthlySubset l).length ≤ l.length := List.length_filter_le _ _
  refine ⟨hle, ?_, ?_⟩
  · split
    · positivity
    · exact le_refl 0
  · split
    · rename_i hpos
      have hb : (0 : ℚ) < (l.length : ℚ) := by exact_mod_cast hpos
      have h1 : ((monthlySubset l).length : ℚ) / (l.length : ℚ) ≤ 1 :=
        (div_le_one hb).mpr (by exact_mod_cast hle)
      calc ((monthlySubset l).length : ℚ) / (l.length : ℚ) * 100 ≤ 1 * 100 :=
            mul_le_mul_of_nonneg_right h1 (by norm_num)
        _ = 100 := by norm_num
    · norm_num

/-! Lemmas about `value_counts`: its key set, its length, and the count
maximality of its head entry. -/

theorem mem_uniqueKeys_aux {α : Type} [DecidableEq α] :
    ∀ (l acc : List α) (a : α),
      a ∈ l.foldl (fun acc x => if x ∈ acc then acc else acc ++ [x]) acc ↔
        a ∈ acc ∨ a ∈ l := by
  intro l
  induction l with
  | nil => intro acc a; simp
  | cons x rest ih =>
    intro acc a
    rw [List.foldl_cons, ih]
    by_cases hx : x ∈ acc
    · simp only [if_pos hx, List.mem_cons]
      constructor
      · intro h
        tauto
      · rintro (h | rfl | h) <;> tauto
    · simp only [if_neg hx, List.mem_append, List.mem_singleton, List.mem_cons]
      tauto

theorem mem_uniqueKeys {α : Type} [DecidableEq α] {l : List α} {a : α} :
    a ∈ uniqueKeys l ↔ a ∈ l := by
  unfold uniqueKeys
  rw [mem_uniqueKeys_aux]
  simp

theorem insertCountDesc_perm (p : String × Nat) :
    ∀ s : List (String × Nat), (insertCountDesc p s).Perm (p :: s) := by
  intro s
  induction s with
  | nil => exact List.Perm.refl _
  | cons q rest ih =>
    unfold insertCountDesc
    by_cases h : q.2 ≤ p.2
    · rw [if_pos h]
    · rw [if_neg h]
      exact (ih.cons q).trans (List.Perm.swap p q rest)

theorem sortCountDesc_perm : ∀ s : List (String × Nat), (sortCountDesc s).Perm s := by
  intro s
  induction s with
  | nil => exact List.Perm.refl _
  | cons p rest ih =>
    exact (insertCountDesc_perm p (sortCountDesc rest)).trans (ih.cons p)

theorem sortCountDesc_head_max :
    ∀ s : List (String × Nat), s ≠ [] →
      ∃ h, (sortCountDesc s).head? = some h ∧ h ∈ s ∧ ∀ q ∈ s, q.2 ≤ h.2 := by
  intro s
  induction s with
  | nil => intro h; exact absurd rfl h
  | cons p rest ih =>
    intro _
    cases rest with
    | nil =>
      refine ⟨p, rfl, by simp, ?_⟩
      intro q hq
      have : q = p := by simpa using hq
      rw [this]
    | cons r0 rest2 =>
      obtain ⟨h0, hh0, hmem0, hmax0⟩ := ih (by simp)
      obtain ⟨t, ht⟩ : ∃ t, sortCountDesc (r0 :: rest2) = h0 :: t := by
        cases hs : sortCountDesc (r0 :: rest2) with
        | nil => rw [hs] at hh0; simp at hh0
        | cons a t =>
          rw [hs] at hh0
          have ha : a = h0 := by simpa using hh0
          exact ⟨t, by rw [ha]⟩
      show ∃ h, (insertCountDesc p (sortCountDesc (r0 :: rest2))).head? = some h ∧ _ ∧ _
      rw [ht]
      unfold insertCountDesc
      by_cases hc : h0.2 ≤ p.2
      · rw [if_pos hc]
        refine ⟨p, rfl, by simp, ?_⟩
        intro q hq
        rcases List.mem_cons.mp hq with rfl | hq2
        · exact le_refl _
        · exact le_trans (hmax0 q hq2) hc
      · rw [if_neg hc]
        refine ⟨h0, rfl, List.mem_cons_of_mem p hmem0, ?_⟩
        intro q hq
        rcases List.mem_cons.mp hq with rfl | hq2
        · exact Nat.le_of_not_le hc
        · exact hmax0 q hq2

theorem value_counts_head_max {l : List String} (hl : l ≠ []) :
    ∃ k, (value_counts l).head? = some (k, l.count k) ∧ k ∈ l ∧
      ∀ v ∈ l, l.count v ≤ l.count k := by
  have hne : (uniqueKeys l).map (fun k => (k, l.count k)) ≠ [] := by
    cases l with
    | nil => exact absurd rfl hl
    | cons a rest =>
      have ha : a ∈ uniqueKeys (a :: rest) := mem_uniqueKeys.mpr (List.mem_cons_self a rest)
      intro hmap
      rw [List.map_eq_nil_iff] at hmap
      rw [hmap] at ha
      simp at ha
  obtain ⟨h, hh, hmem, hmax⟩ := sortCountDesc_head_max _ hne
  obtain ⟨k, hk, hpair⟩ := List.mem_map.mp hmem
  refine ⟨k, ?_, mem_uniqueKeys.mp hk, ?_⟩
  · show (sortCountDesc ((uniqueKeys l).map (fun k => (k, l.count k)))).head? = _
    rw [hh, ← hpair]
  · intro v hv
    have hvu : v ∈ uniqueKeys l := mem_uniqueKeys.mpr hv
    have hvm : (v, l.count v) ∈ (uniqueKeys l).map (fun k => (k, l.count k)) :=
      List.mem_map_of_mem _ hvu
    have := hmax _ hvm
    rw [← hpair] at this
    simpa using this

theorem mem_value_counts_keys {l : List String} {k : String} :
    k ∈ (value_counts l).map Prod.fst ↔ k ∈ l := by
  unfold value_counts
  rw [((sortCountDesc_perm ((uniqueKeys l).map (fun k => (k, l.count k)))).map
    Prod.fst).mem_iff]
  rw [List.map_map]
  have hmapid : (uniqueKeys l).map (Prod.fst ∘ fun k => (k, l.count k)) = uniqueKeys l := by
    rw [show (Prod.fst ∘ fun k : String => (k, l.count k)) = id from rfl, List.map_id]
  rw [hmapid]
  exact mem_uniqueKeys

theorem value_counts_length (l : List String) :
    (value_counts l).length = (uniqueKeys l).length := by
  unfold value_counts
  rw [(sortCountDesc_perm _).length_eq, List.length_map]

/-! Length lemmas for the ascending sort and the EMA. -/

theorem insertAsc_length {α : Type} [LinearOrder α] (a : α) :
    ∀ l : List α, (insertAsc a l).length = l.length + 1 := by
  intro l
  induction l with
  | nil => rfl
  | cons b rest ih =>
    unfold insertAsc
    by_cases h : a ≤ b
    · rw [if_pos h]
      rfl
    · rw [if_neg h]
      simp only [List.length_cons, ih]

theorem sortAsc_length {α : Type} [LinearOrder α] :
    ∀ l : List α, (sortAsc l).length = l.length := by
  intro l
  induction l with
  | nil => rfl
  | cons a rest ih =>
    show (insertAsc a (sortAsc rest)).length = rest.length + 1
    rw [insertAsc_length, ih]

theorem emaFrom_length (alpha : ℚ) :
    ∀ (xs : List ℚ) (prev : ℚ), (emaFrom alpha prev xs).length = xs.length := by
  intro xs
  induction xs with
  | nil => intro prev; rfl
  | cons x rest ih =>
    intro prev
    show (emaFrom alpha ((1 - alpha) * prev + alpha * x) rest).length + 1 = rest.length + 1
    rw [ih]

theorem calculate_ema_length (xs : List ℚ) (span : Nat) :
    (calculate_ema xs span).length = xs.length := by
  cases xs with
  | nil => rfl
  | cons x rest =>
    show (emaFrom (2 / ((span : ℚ) + 1)) x rest).length + 1 = rest.length + 1
    rw [emaFrom_length]

theorem dailyMeanSeries_length (l : List Vacancy) :
    (dailyMeanSeries l).length = distinctSalaryDays l := by
  unfold dailyMeanSeries salaryDays distinctSalaryDays
  rw [List.length_map, sortAsc_length]

/-- Claim C4: the trend descriptor is present in the report exactly when at
least 7 distinct days carry monthly-salary data — its absence below the
threshold is an ordinary outcome, not an error — and when present it is the
trend analysis of the span-7 EMA of the per-day mean salary series ordered by
day ascending. -/
theorem claim_C4_trend_gate (l : List Vacancy) :
    ((analyze_monthly_metrics l).trend_analysis.isSome = true ↔
        7 ≤ distinctSalaryDays l) ∧
      (7 ≤ distinctSalaryDays l →
        (analyze_monthly_metrics l).trend_analysis =
          analyze_trend_from_ema (calculate_ema (dailyMeanSeries l) 7)) := by
  have hproj : (analyze_monthly_metrics l).trend_analysis =
      (if 7 ≤ distinctSalaryDays l then
        analyze_trend_from_ema (calculate_ema (dailyMeanSeries l) 7) else none) := rfl
  constructor
  · rw [hproj]
    by_cases h : 7 ≤ distinctSalaryDays l
    · rw [if_pos h]
      constructor
      · intro _
        exact h
      · intro _
        have hlen : (calculate_ema (dailyMeanSeries l) 7).length = distinctSalaryDays l := by
          rw [calculate_ema_length, dailyMeanSeries_length]
        unfold analyze_trend_from_ema
        rw [if_neg (by rw [hlen]; omega)]
        rfl
    · rw [if_neg h]
      simp [h]
  · intro h
    rw [hproj, if_pos h]

/-- Witness for claim C4: seven records on seven distinct days, all with a
monthly salary label, produce the trend descriptor of the EMA series. -/
theorem claim_C4_witness :
    (analyze_monthly_metrics
        [⟨some "мес", some 100, none, 1, "Monday", none, none⟩,
         ⟨some "мес", some 100, none, 2, "Monday", none, none⟩,
         ⟨some "мес", some 100, none, 3, "Monday", none, none⟩,
         ⟨some "мес", some 100, none, 4, "Monday", none, none⟩,
         ⟨some "мес", some 100, none, 5, "Monday", none, none⟩,
         ⟨some "мес", some 100, none, 6, "Monday", none, none⟩,
         ⟨some "мес", some 100, none, 7, "Monday", none, none⟩]).trend_analysis =
      analyze_trend_from_ema (calculate_ema (dailyMeanSeries
        [⟨some "мес", some 100, none, 1, "Monday", none, none⟩,
         ⟨some "мес", some 100, none, 2, "Monday", none, none⟩,
         ⟨some "мес", some 100, none, 3, "Monday", none, none⟩,
         ⟨some "мес", some 100, none, 4, "Monday", none, none⟩,
         ⟨some "мес", some 100, none, 5, "Monday", none, none⟩,
         ⟨some "мес", some 100, none, 6, "Monday", none, none⟩,
         ⟨some "мес", some 100, none, 7, "Monday", none, none⟩]) 7) :=
  (claim_C4_trend_gate _).2 (by decide)

/-- Claim C6, counterexample: with one Tuesday record before one Monday
record, both weekdays attain the maximum count 1, the source reports
Tuesday (first appearance wins), but the specified fixed Monday..Sunday
tie-break requires Monday. -/
theorem claim_C6_counterexample :
    (analyze_monthly_metrics
        [⟨none, none, none, 1, "Tuesday", none, none⟩,
         ⟨none, none, none, 2, "Monday", none, none⟩]).top_weekday = some "Tuesday" ∧
      specTopWeekday
        [⟨none, none, none, 1, "Tuesday", none, none⟩,
         ⟨none, none, none, 2, "Monday", none, none⟩] = some "Monday" ∧
      (analyze_monthly_metrics
        [⟨none, none, none, 1, "Tuesday", none, none⟩,
         ⟨none, none, none, 2, "Monday", none, none⟩]).top_weekday ≠
        specTopWeekday
          [⟨none, none, none, 1, "Tuesday", none, none⟩,
           ⟨none, none, none, 2, "Monday", none, none⟩] := by
  refine ⟨by decide, by decide, by decide⟩

/-- Claim C6, amended: on a non-empty record set `top_weekday` is a weekday
attaining the maximum count, but its tie-break is the first appearance order
of the records, not the fixed Monday..Sunday ordering. -/
theorem claim_C6_top_weekday_attains_max (l : List Vacancy) (hl : l ≠ []) :
    ∃ w, (analyze_monthly_metrics l).top_weekday = some w ∧
      w ∈ l.map (fun r => r.published_weekday) ∧
      ∀ v ∈ l.map (fun r => r.published_weekday),
        (l.map (fun r => r.published_weekday)).count v ≤
          (l.map (fun r => r.published_weekday)).count w := by
  have hw : l.map (fun r => r.published_weekday) ≠ [] := by
    cases l with
    | nil => exact absurd rfl hl
    | cons a rest => simp
  obtain ⟨k, hk, hmem, hmax⟩ := value_counts_head_max hw
  refine ⟨k, ?_, hmem, hmax⟩
  show ((value_counts (l.map fun r => r.published_weekday)).head?).map Prod.fst = some k
  rw [hk]
  rfl

/-- Witness for the amended claim C6 at a singleton record set. -/
theorem claim_C6_witness :
    ∃ w, (analyze_monthly_metrics
        [⟨none, none, none, 3, "Friday", none, none⟩]).top_weekday = some w ∧
      w ∈ [(⟨none, none, none, 3, "Friday", none, none⟩ : Vacancy)].map
        (fun r => r.published_weekday) ∧
      ∀ v ∈ [(⟨none, none, none, 3, "Friday", none, none⟩ : Vacancy)].map
          (fun r => r.published_weekday),
        ([(⟨none, none, none, 3, "Friday", none, none⟩ : Vacancy)].map
            (fun r => r.published_weekday)).count v ≤
          ([(⟨none, none, none, 3, "Friday", none, none⟩ : Vacancy)].map
            (fun r => r.published_weekday)).count w :=
  claim_C6_top_weekday_attains_max _ (by decide)

/-- Claim C5, counterexample: two record sets that are permutations of each
other produce different reports — with the tied weekdays Monday and Tuesday,
the reported `top_weekday` follows the iteration order. -/
theorem claim_C5_perm_counterexample :
    ([⟨none, none, none, 1, "Monday", none, none⟩,
      ⟨none, none, none, 2, "Tuesday", none, none⟩] : List Vacancy).Perm
        [⟨none, none, none, 2, "Tuesday", none, none⟩,
         ⟨none, none, none, 1, "Monday", none, none⟩] ∧
      (analyze_monthly_metrics
          [⟨none, none, none, 1, "Monday", none, none⟩,
           ⟨none, none, none, 2, "Tuesday", none, none⟩]).top_weekday ≠
        (analyze_monthly_metrics
          [⟨none, none, none, 2, "Tuesday", none, none⟩,
           ⟨none, none, none, 1, "Monday", none, none⟩]).top_weekday := by
  refine ⟨by decide, by decide⟩

/-- Claim C5, amended: full reports are not iteration-order independent
(top-N and top-weekday ties follow first appearance), but the counting
metrics — total, monthly-salary count and salary percentage — are invariant
under permutation of the records. -/
theorem claim_C5_counting_metrics_perm_invariant (l1 l2 : List Vacancy)
    (h : l1.Perm l2) :
    (analyze_monthly_metrics l1).total_vacancies =
        (analyze_monthly_metrics l2).total_vacancies ∧
      (analyze_monthly_metrics l1).with_monthly_salary =
        (analyze_monthly_metrics l2).with_monthly_salary ∧
      (analyze_monthly_metrics l1).salary_percentage =
        (analyze_monthly_metrics l2).salary_percentage := by
  have hlen := h.length_eq
  have hsub : (monthlySubset l1).length = (monthlySubset l2).length :=
    (h.filter _).length_eq
  refine ⟨hlen, hsub, ?_⟩
  show (if 0 < l1.length then ((monthlySubset l1).length : ℚ) / (l1.length : ℚ) * 100
      else 0) =
    (if 0 < l2.length then ((monthlySubset l2).length : ℚ) / (l2.length : ℚ) * 100
      else 0)
  rw [hlen, hsub]

/-- Witness for the amended claim C5 at a concrete transposition. -/
theorem claim_C5_witness :
    (analyze_monthly_metrics
        [⟨none, none, none, 4, "Wednesday", none, none⟩,
         ⟨some "мес", some 50, none, 5, "Thursday", none, none⟩]).total_vacancies =
      (analyze_monthly_metrics
        [⟨some "мес", some 50, none, 5, "Thursday", none, none⟩,
         ⟨none, none, none, 4, "Wednesday", none, none⟩]).total_vacancies ∧
      (analyze_monthly_metrics
        [⟨none, none, none, 4, "Wednesday", none, none⟩,
         ⟨some "мес", some 50, none, 5, "Thursday", none, none⟩]).with_monthly_salary =
      (analyze_monthly_metrics
        [⟨some "мес", some 50, none, 5, "Thursday", none, none⟩,
         ⟨none, none, none, 4, "Wednesday", none, none⟩]).with_monthly_salary ∧
      (analyze_monthly_metrics
        [⟨none, none, none, 4, "Wednesday", none, none⟩,
         ⟨some "мес", some 50, none, 5, "Thursday", none, none⟩]).salary_percentage =
      (analyze_monthly_metrics
        [⟨some "мес", some 50, none, 5, "Thursday", none, none⟩,
         ⟨none, none, none, 4, "Wednesday", none, none⟩]).salary_percentage :=
  claim_C5_counting_metrics_perm_invariant _ _ (by decide)

/-- Claim C7, counterexample: a record with a blank (whitespace-only)
employer is stripped to the empty string, which is not null, so `fillna`
leaves it alone: it is counted under the empty-string key, not under the
explicit "Не указан" bucket the claim requires for blank employers. -/
theorem claim_C7_blank_employer_counterexample :
    (analyze_monthly_metrics
        [⟨none, none, none, 1, "Monday", some "  ", none⟩]).top_employers_count =
      [("", 1)] ∧
      "Не указан" ∉ ((analyze_monthly_metrics
        [⟨none, none, none, 1, "Monday", some "  ", none⟩]).top_employers_count).map
          Prod.fst := by
  refine ⟨by decide, by decide⟩

/-- Claim C7, amended: every record whose employer is absent (null) is
counted under the explicit "Не указан" bucket, which is itself eligible to
appear among the top 5; a blank (whitespace-only) employer is instead
trimmed to the empty string and counted under the empty-string key. -/
theorem claim_C7_absent_employer_bucket (l : List Vacancy)
    (h : ∃ r ∈ l, r.employer = none) :
    "Не указан" ∈ (value_counts (l.map employerClean)).map Prod.fst ∧
      ((value_counts (l.map employerClean)).length ≤ 5 →
        "Не указан" ∈
          ((analyze_monthly_metrics l).top_employers_count).map Prod.fst) := by
  obtain ⟨r, hr, hre⟩ := h
  have hmem : "Не указан" ∈ l.map employerClean := by
    refine List.mem_map.mpr ⟨r, hr, ?_⟩
    simp [employerClean, hre]
  have h1 : "Не указан" ∈ (value_counts (l.map employerClean)).map Prod.fst :=
    mem_value_counts_keys.mpr hmem
  refine ⟨h1, ?_⟩
  intro hlen
  show "Не указан" ∈ ((value_counts (l.map employerClean)).take 5).map Prod.fst
  rw [List.take_of_length_le hlen]
  exact h1

/-- Witness for the amended claim C7: a single record with a null employer
puts "Не указан" into the reported top-5 employers. -/
theorem claim_C7_witness :
    "Не указан" ∈ ((analyze_monthly_metrics
        [⟨none, none, none, 1, "Sunday", none, none⟩]).top_employers_count).map
          Prod.fst :=
  (claim_C7_absent_employer_bucket
    [⟨none, none, none, 1, "Sunday", none, none⟩] (by decide)).2 (by decide)

end MonthlyAnalytics
